import Mathlib

/-!
Verification development for the `deet` debugger
(`src/proj-1/deet/src/debugger.rs`, `src/proj-1/deet/src/inferior.rs`).

The Rust source is shallowly embedded: machine words are `Nat` values
below `2 ^ 64`, the inferior's memory is a map from addresses to words,
and the stateful debugger methods become explicit state-passing
functions.  Observable output (`println!`) is modelled as an event list.
-/

namespace Deet

/-- From `inferior.rs`, `align_addr_to_word`:
`addr & (-(size_of::<usize>() as isize) as usize)`.
On the 64-bit target, `-(8 : isize) as usize = 2 ^ 64 - 8`. -/
def align_addr_to_word (addr : Nat) : Nat :=
  addr &&& (2 ^ 64 - 8)

/-- The inferior's memory, as seen through `ptrace::read` / `ptrace::write`:
a map from an address to the 64-bit word read at that address. -/
structure Memory where
  word : Nat → Nat

/-- A memory all of whose words are 64-bit values. -/
def Memory.WF (m : Memory) : Prop :=
  ∀ a, m.word a < 2 ^ 64

/-- From `inferior.rs`, `Inferior::read_byte`: despite its name it returns the
full word `ptrace::read` fetches at `addr`. -/
def read_byte (m : Memory) (addr : Nat) : Nat :=
  m.word addr

/-- `ptrace::write`: store word `w` at address `addr`. -/
def ptraceWrite (m : Memory) (addr w : Nat) : Memory :=
  ⟨fun a => if a = addr then w else m.word a⟩

/-- From `inferior.rs`, `Inferior::write_byte`: read-modify-write of the single
byte at `addr` inside the word containing `addr`; returns the byte previously
at `addr` together with the updated memory.  `val` is the `u8` argument. -/
def write_byte (m : Memory) (addr val : Nat) : Nat × Memory :=
  let aligned_addr := align_addr_to_word addr
  let byte_offset := addr - aligned_addr
  let word := read_byte m aligned_addr
  let orig_byte := (word >>> (8 * byte_offset)) &&& 0xff
  let masked_word := word &&& ((2 ^ 64 - 1) ^^^ (0xff <<< (8 * byte_offset)))
  let updated_word := masked_word ||| (val <<< (8 * byte_offset))
  (orig_byte, ptraceWrite m aligned_addr updated_word)

/-- The `k`-th byte of machine word `w` (specification helper, mirroring the
extraction `(word >> 8 * k) & 0xff` used by `write_byte` itself). -/
def byteAt (w k : Nat) : Nat :=
  (w >>> (8 * k)) &&& 0xff

/-- The word transformation performed by `write_byte` (its `updated_word`). -/
def updatedWord (w off val : Nat) : Nat :=
  (w &&& ((2 ^ 64 - 1) ^^^ (0xff <<< (8 * off)))) ||| (val <<< (8 * off))

/-- Signals relevant to the debugger (from `nix::sys::signal::Signal`). -/
inductive Signal where
  | SIGTRAP : Signal
  | SIGSEGV : Signal
  | SIGINT : Signal
  | SIGKILL : Signal
  | SIGTERM : Signal
  deriving DecidableEq

/-- `inferior.rs`, `enum Status`. -/
inductive Status where
  | Continued : Status
  | Stopped : Signal → Nat → Status
  | Exited : Int → Status
  | Killed : Int → Status
  | Signaled : Signal → Status
  deriving DecidableEq

/-- Kernel statuses returned by `waitpid` (`nix::sys::wait::WaitStatus`). -/
inductive WaitStatus where
  | Exited : Nat → Int → WaitStatus
  | Signaled : Nat → Signal → Bool → WaitStatus
  | Stopped : Nat → Signal → WaitStatus
  | PtraceEvent : Nat → Signal → Int → WaitStatus
  | PtraceSyscall : Nat → WaitStatus
  | Continued : Nat → WaitStatus
  | StillAlive : WaitStatus
  deriving DecidableEq

/-- The register snapshot `ptrace::getregs` returns (the two registers the
debugger reads). -/
structure Regs where
  rip : Nat
  rbp : Nat
  deriving DecidableEq

/-- `inferior.rs`, `struct Inferior`: the traced child, seen as its memory
and registers. -/
structure Inferior where
  mem : Memory
  regs : Regs

/-- `Inferior::wait`, success path of `waitpid`: classifies the kernel
status; `regs` is the register snapshot taken at the moment of a stop.
`none` models the `panic!` wildcard arm, which aborts the whole debugger
process instead of retrying or returning a value. -/
def wait (ws : WaitStatus) (regs : Regs) : Option Status :=
  match ws with
  | .Exited _ exit_code => some (.Exited exit_code)
  | .Signaled _ sig _ => some (.Signaled sig)
  | .Stopped _ sig => some (.Stopped sig regs.rip)
  | _ => none

/-- The kernel statuses `Inferior::wait` maps to a `Status` value (every
other status reaches the aborting wildcard arm). -/
def isMappedStatus : WaitStatus → Bool
  | .Exited _ _ => true
  | .Signaled _ _ _ => true
  | .Stopped _ _ => true
  | _ => false

/-- A source line, as resolved by the debug-symbol lookup. -/
structure Line where
  file : String
  number : Nat
  deriving DecidableEq

/-- The external debug-symbol lookup (`DwarfData`), reduced to the two
query functions the core uses. -/
structure DwarfData where
  get_line_from_addr : Nat → Option Line
  get_function_from_addr : Nat → Option String

/-- One backtrace frame as printed: `func (file:number)`. -/
structure Frame where
  func : String
  file : String
  number : Nat
  deriving DecidableEq

/-- How the backtrace loop ended. `outOfFuel` is an artifact of the fuel
bound; the Rust loop itself only ever ends by `foundMain` or `lostTrail`. -/
inductive BtEnd where
  | foundMain : BtEnd
  | lostTrail : Nat → BtEnd
  | outOfFuel : BtEnd
  deriving DecidableEq

/-- `Inferior::print_backtrace` main loop (`inferior.rs` lines 95-112):
resolve line and function at `rip`; if both resolve, emit the frame and
stop on `main`, otherwise follow the saved return address at `rbp + 8`
and the saved frame pointer at `rbp`; if either lookup fails, stop with
the trail lost at `rip`.  `fuel` bounds the iteration count. -/
def backtraceAux (d : DwarfData) (m : Memory) : Nat → Nat → Nat → List Frame × BtEnd
  | 0, _, _ => ([], .outOfFuel)
  | fuel + 1, rip, rbp =>
    match d.get_line_from_addr rip, d.get_function_from_addr rip with
    | some line, some func =>
      if func = "main" then ([⟨func, line.file, line.number⟩], .foundMain)
      else
        let next := backtraceAux d m fuel (m.word (rbp + 8)) (m.word rbp)
        (⟨func, line.file, line.number⟩ :: next.1, next.2)
    | _, _ => ([], .lostTrail rip)

/-- `Inferior::print_backtrace`, started from the stopped process's
register snapshot. -/
def print_backtrace (d : DwarfData) (inf : Inferior) (fuel : Nat) : List Frame × BtEnd :=
  backtraceAux d inf.mem fuel inf.regs.rip inf.regs.rbp

/-- Value of a hexadecimal digit, as accepted by `usize::from_str_radix(_, 16)`. -/
def hexDigitVal (c : Char) : Option Nat :=
  if '0' ≤ c ∧ c ≤ '9' then some (c.toNat - 48)
  else if 'a' ≤ c ∧ c ≤ 'f' then some (c.toNat - 87)
  else if 'A' ≤ c ∧ c ≤ 'F' then some (c.toNat - 55)
  else none

def parseHexDigits : List Char → Nat → Option Nat
  | [], acc => some acc
  | c :: cs, acc =>
    match hexDigitVal c with
    | none => none
    | some d => parseHexDigits cs (16 * acc + d)

/-- `usize::from_str_radix(s, 16)`: an optional leading plus sign, then a
non-empty run of hexadecimal digits; a value past `usize::MAX` is an
overflow error. -/
def from_str_radix16 (s : List Char) : Option Nat :=
  let cs := match s with
    | '+' :: rest => rest
    | l => l
  match cs with
  | [] => none
  | _ =>
    match parseHexDigits cs 0 with
    | none => none
    | some v => if v < 2 ^ 64 then some v else none

/-- `debugger.rs`, `parse_address`: strip a case-insensitive `0x` and parse
the rest as hexadecimal.  The string tests (`to_lowercase`, `starts_with`,
slicing off two bytes) are modelled on the character list; the inputs of
interest are ASCII, where Rust's byte slicing agrees with character
slicing. -/
def parse_address (addr : String) : Option Nat :=
  let cs := addr.data
  let addr_without_0x :=
    match cs.map Char.toLower with
    | '0' :: 'x' :: _ => cs.drop 2
    | _ => cs
  from_str_radix16 addr_without_0x

/-- `debugger.rs`, `struct Breakpoint`: `cur_byte` is the byte last written
at the address (a `usize` in the source), `orig_byte` the byte that write
returned (a `u8`). -/
structure Breakpoint where
  cur_byte : Nat
  orig_byte : Nat
  deriving DecidableEq

/-- The debugger's `HashMap<usize, Option<Breakpoint>>`, as an association
list with distinct keys (most recent insertion first). -/
abbrev BpMap := List (Nat × Option Breakpoint)

def bpLookup (m : BpMap) (k : Nat) : Option (Option Breakpoint) :=
  (m.find? (fun p => p.1 == k)).map Prod.snd

def bpInsert (m : BpMap) (k : Nat) (v : Option Breakpoint) : BpMap :=
  (k, v) :: m.filter (fun p => p.1 != k)

/-- Observable operator-facing behavior: lines printed and process-control
actions taken, in order. -/
inductive Event where
  | printStop : Signal → Nat → Event
  | printStoppedAtLine : String → Nat → Event
  | printExited : Int → Event
  | printKilledStatus : Int → Event
  | spawnProcess : Event
  | killOldProcess : Event
  | printSetBreakpoint : Nat → Nat → Event
  | printErrorStartingSubprocess : Event
  deriving DecidableEq

/-- The mutable state of `Debugger` that the core manipulates: the current
inferior, the breakpoint map, and the debug-symbol lookup. -/
structure DbgState where
  inferior : Option Inferior
  breakpoints : BpMap
  debug_data : DwarfData

/-- `debugger.rs`, `Debugger::insert_breakpoint`: writes the trap opcode
`0xcc` at `mem_addr` of a live inferior and returns the displaced byte in
a fresh `Breakpoint`; returns `None` when no inferior is running.
`cur_byte as u8` is the Rust truncating cast, modelled as `% 256`. -/
def insert_breakpoint (dbg : DbgState) (mem_addr : Nat) : Option Breakpoint × DbgState :=
  match parse_address "0xcc" with
  | none => (none, dbg)
  | some cur_byte =>
    match dbg.inferior with
    | some inf =>
      let r := write_byte inf.mem mem_addr (cur_byte % 256)
      (some ⟨cur_byte, r.1⟩, { dbg with inferior := some { inf with mem := r.2 } })
    | none => (none, dbg)

/-- `debugger.rs`, `Debugger::restore_breakpoint`: if the map holds an
installed breakpoint at `mem_addr` and an inferior is live, write the
recorded `orig_byte` back and return a `Breakpoint` whose `cur_byte` is
that `orig_byte` and whose `orig_byte` is whatever byte the write
displaced. -/
def restore_breakpoint (dbg : DbgState) (mem_addr : Nat) : Option Breakpoint × DbgState :=
  match bpLookup dbg.breakpoints mem_addr with
  | some (some bp) =>
    match dbg.inferior with
    | some inf =>
      let r := write_byte inf.mem mem_addr (bp.orig_byte % 256)
      (some ⟨bp.orig_byte, r.1⟩, { dbg with inferior := some { inf with mem := r.2 } })
    | none => (none, dbg)
  | _ => (none, dbg)

/-- `Debugger::clear_inferior`: kill a running inferior (`Inferior::kill`
reports `Killed(0)` and the method prints the kill) and drop it. -/
def clear_inferior (dbg : DbgState) : DbgState × List Event :=
  match dbg.inferior with
  | none => (dbg, [])
  | some _ => ({ dbg with inferior := none }, [Event.killOldProcess])

/-- Loop control for the `Debugger::go` loop. -/
inductive Ctl where
  | brk : Ctl
  | cont : Ctl
  deriving DecidableEq

/-- One iteration of the `Debugger::go` loop, handling the result of
`process.wait(None)` (`debugger.rs` lines 151-186): the updated state,
the lines printed, and whether the loop breaks or goes around again.
The `Err` arm only builds a string without printing it. -/
def handleWaitStatus (dbg : DbgState) (w : Except Unit Status) : DbgState × List Event × Ctl :=
  match w with
  | .error _ => (dbg, [], .brk)
  | .ok (.Stopped sig rip) =>
    let ev1 := match dbg.debug_data.get_line_from_addr rip with
      | some line => [Event.printStop sig rip, Event.printStoppedAtLine line.file line.number]
      | none => [Event.printStop sig rip]
    if sig = Signal.SIGTRAP then
      let r := restore_breakpoint dbg (rip - 1)
      match r.1 with
      | none => (r.2, ev1, .brk)
      | some bp =>
        ({ r.2 with breakpoints := bpInsert r.2.breakpoints (rip - 1) (some bp) }, ev1, .brk)
    else (dbg, ev1, .brk)
  | .ok (.Exited exit_code) => ({ dbg with inferior := none }, [Event.printExited exit_code], .brk)
  | .ok (.Killed exit_code) =>
    ({ dbg with inferior := none }, [Event.printKilledStatus exit_code], .brk)
  | .ok _ => (dbg, [], .cont)

/-- The `DebuggerCommand::Run` arm of `Debugger::run` (lines 60-73), up to
but not including the final `self.go()` call (the resume/wait cycle is
modelled separately by `handleWaitStatus`).  `spawned` is the result of
`Inferior::new`: the freshly spawned traced child, or `none` when spawning
failed.  A successful spawn is recorded as the first event. -/
def run_command (dbg : DbgState) (spawned : Option Inferior) : DbgState × List Event :=
  match spawned with
  | some inf =>
    let c := clear_inferior dbg
    let dbg1 := { c.1 with inferior := some inf }
    let dbg2 := (dbg1.breakpoints.map Prod.fst).foldl
      (fun st addr =>
        let r := insert_breakpoint st addr
        { r.2 with breakpoints := bpInsert r.2.breakpoints addr r.1 }) dbg1
    (dbg2, Event.spawnProcess :: c.2)
  | none => (dbg, [Event.printErrorStartingSubprocess])

/-- The `DebuggerCommand::Breakpoint` arm of `Debugger::run` (lines 92-97).
`none` models the panicking `.unwrap()` on a failed `parse_address`,
which terminates the whole debugger process. -/
def breakpoint_command (dbg : DbgState) (addr : String) : Option (DbgState × List Event) :=
  match parse_address addr with
  | none => none
  | some num_addr =>
    let ev := [Event.printSetBreakpoint dbg.breakpoints.length num_addr]
    let r := insert_breakpoint dbg num_addr
    some ({ r.2 with breakpoints := bpInsert r.2.breakpoints num_addr r.1 }, ev)

/-- The commands of `DebuggerCommand` (declared in `debugger_command.rs`,
which is not among the source files; the variants are those `debugger.rs`
matches on). -/
inductive DebuggerCommand where
  | Run : List String → DebuggerCommand
  | Continue : DebuggerCommand
  | Quit : DebuggerCommand
  | Backtrace : DebuggerCommand
  | Breakpoint : String → DebuggerCommand
  deriving DecidableEq

/-- Modelled from the spec: `DebuggerCommand::from_tokens` lives in
`debugger_command.rs`, which is missing from `src/`.  Per the spec's
external-interface section, the command parser "turns a tokenized input
line into one of Run(args), Continue, Quit, Backtrace,
Breakpoint(address_literal)", and unparseable input yields no command.
The address literal is carried as the raw token; its hexadecimal
interpretation happens later, in `parse_address` (which is in `src/`). -/
def from_tokens : List String → Option DebuggerCommand
  | "run" :: args => some (.Run args)
  | ["continue"] => some .Continue
  | ["quit"] => some .Quit
  | ["backtrace"] => some .Backtrace
  | ["breakpoint", a] => some (.Breakpoint a)
  | _ => none

/-- The install sequence the session performs:
`let bp = self.insert_breakpoint(addr); self.breakpoints.insert(addr, bp)`
(shared by the `Run` and `Breakpoint` arms of `Debugger::run`). -/
def installAndRecord (dbg : DbgState) (addr : Nat) : DbgState :=
  let r := insert_breakpoint dbg addr
  { r.2 with breakpoints := bpInsert r.2.breakpoints addr r.1 }

/-- The ordering property of the `run` command stated by the spec: the
already-running process is killed strictly before the new one is
spawned. -/
def terminatedBeforeLaunched (tr : List Event) : Prop :=
  ∃ i j, i < j ∧ tr.get? i = some Event.killOldProcess ∧ tr.get? j = some Event.spawnProcess

/-! Concrete fixtures used by counterexamples and witnesses. -/

/-- A memory whose every word is `0x55`. -/
def memC : Memory := ⟨fun _ => 0x55⟩

/-- A symbol table that resolves nothing. -/
def dwarfNone : DwarfData := ⟨fun _ => none, fun _ => none⟩

/-- A live inferior stopped just past address `0x1000`. -/
def infC : Inferior := ⟨memC, ⟨0x1001, 0⟩⟩

/-- A session with a live inferior and no breakpoints. -/
def dbgC : DbgState := ⟨some infC, [], dwarfNone⟩

/-- `dbgC` after the session installs a breakpoint at `0x1000`
(the `let bp = self.insert_breakpoint(addr); self.breakpoints.insert(addr, bp)`
sequence shared by the `Breakpoint` and `Run` arms). -/
def dbgInstalled : DbgState := installAndRecord dbgC 0x1000

/-- A symbol table that resolves every address to `main` at `main.c:1`. -/
def dwarfMainC : DwarfData := ⟨fun _ => some ⟨"main.c", 1⟩, fun _ => some "main"⟩

/-- An inferior stopped at the entry function. -/
def infMainC : Inferior := ⟨memC, ⟨0x401000, 0x7fff0000⟩⟩

/-! ## Theorems -/

theorem write_byte_eq (m : Memory) (addr val : Nat) :
    write_byte m addr val =
      (byteAt (m.word (align_addr_to_word addr)) (addr - align_addr_to_word addr),
       ptraceWrite m (align_addr_to_word addr)
         (updatedWord (m.word (align_addr_to_word addr))
           (addr - align_addr_to_word addr) val)) := rfl

theorem align_addr_to_word_eq {addr : Nat} (h : addr < 2 ^ 64) :
    align_addr_to_word addr = addr - addr % 8 := by
  have hbit : ∀ i, Nat.testBit (2 ^ 64 - 8) i = (decide (3 ≤ i) && decide (i < 64)) := by
    intro i
    rw [show (2 ^ 64 - 8 : Nat) = (2 ^ 61 - 1) <<< 3 from by rw [Nat.shiftLeft_eq]; norm_num]
    simp only [Nat.testBit_shiftLeft, Nat.testBit_two_pow_sub_one, ge_iff_le]
    by_cases h3 : 3 ≤ i
    · by_cases h64 : i < 64
      · simp [h3, h64, show i - 3 < 61 by omega]
      · simp [h3, h64, show ¬ (i - 3 < 61) by omega]
    · simp [h3]
  have hdiv : addr - addr % 8 = (addr >>> 3) <<< 3 := by
    rw [Nat.shiftRight_eq_div_pow, Nat.shiftLeft_eq]
    have := Nat.div_add_mod addr 8
    norm_num
    omega
  rw [align_addr_to_word, hdiv]
  apply Nat.eq_of_testBit_eq
  intro i
  rw [Nat.testBit_and, hbit i]
  simp only [Nat.testBit_shiftLeft, Nat.testBit_shiftRight, ge_iff_le]
  by_cases h3 : 3 ≤ i
  · by_cases h64 : i < 64
    · simp [h3, h64, show 3 + (i - 3) = i by omega]
    · have hai : Nat.testBit addr i = false :=
        Nat.testBit_lt_two_pow
          (Nat.lt_of_lt_of_le h (Nat.pow_le_pow_right (by norm_num) (by omega)))
      simp [h3, h64, show 3 + (i - 3) = i by omega, hai]
  · simp [h3]

theorem byte_offset_lt {addr : Nat} (h : addr < 2 ^ 64) :
    addr - align_addr_to_word addr < 8 := by
  rw [align_addr_to_word_eq h]
  omega

theorem byte_offset_eq {addr : Nat} (h : addr < 2 ^ 64) :
    addr - align_addr_to_word addr = addr % 8 := by
  rw [align_addr_to_word_eq h]
  omega

theorem align_le {addr : Nat} (h : addr < 2 ^ 64) : align_addr_to_word addr ≤ addr := by
  rw [align_addr_to_word_eq h]; omega

/-- Bit `i` of the word produced by `write_byte`'s read-modify-write. -/
theorem testBit_updatedWord {off val : Nat} (w : Nat) (i : Nat)
    (hoff : off < 8) (hval : val < 256) :
    Nat.testBit (updatedWord w off val) i =
      if 8 * off ≤ i ∧ i < 8 * off + 8 then Nat.testBit val (i - 8 * off)
      else (decide (i < 64) && Nat.testBit w i) := by
  have h255 : (0xff : Nat) = 2 ^ 8 - 1 := by norm_num
  rw [updatedWord, h255]
  simp only [Nat.testBit_or, Nat.testBit_and, Nat.testBit_xor, Nat.testBit_shiftLeft,
    Nat.testBit_two_pow_sub_one, ge_iff_le]
  by_cases h1 : 8 * off ≤ i
  · by_cases h2 : i < 8 * off + 8
    · have h64 : i < 64 := by omega
      simp [h1, h2, show i - 8 * off < 8 by omega, h64]
    · have hvb : Nat.testBit val (i - 8 * off) = false := by
        apply Nat.testBit_lt_two_pow
        calc val < 256 := hval
          _ = 2 ^ 8 := by norm_num
          _ ≤ 2 ^ (i - 8 * off) := Nat.pow_le_pow_right (by norm_num) (by omega)
      by_cases h64 : i < 64 <;>
        simp [h1, h2, hvb, show ¬ (i - 8 * off < 8) by omega, h64]
  · have h64 : i < 64 := by omega
    simp [h1, h64, show ¬ (8 * off ≤ i ∧ i < 8 * off + 8) by omega]

theorem byteAt_lt (w k : Nat) : byteAt w k < 256 :=
  Nat.lt_of_le_of_lt Nat.and_le_right (by norm_num)

theorem testBit_byteAt (w k j : Nat) :
    Nat.testBit (byteAt w k) j = (Nat.testBit w (8 * k + j) && decide (j < 8)) := by
  rw [byteAt, show (0xff : Nat) = 2 ^ 8 - 1 from by norm_num]
  simp only [Nat.testBit_and, Nat.testBit_shiftRight, Nat.testBit_two_pow_sub_one]

theorem updatedWord_lt {off val : Nat} (w : Nat) (hoff : off < 8) (hval : val < 256) :
    updatedWord w off val < 2 ^ 64 := by
  apply Nat.or_lt_two_pow
  · exact Nat.and_lt_two_pow w (Nat.xor_lt_two_pow (by norm_num)
      (by rw [Nat.shiftLeft_eq]
          calc (0xff : Nat) * 2 ^ (8 * off) ≤ 255 * 2 ^ 56 :=
                Nat.mul_le_mul (by norm_num) (Nat.pow_le_pow_right (by norm_num) (by omega))
            _ < 2 ^ 64 := by norm_num))
  · rw [Nat.shiftLeft_eq]
    calc val * 2 ^ (8 * off) ≤ 255 * 2 ^ 56 :=
          Nat.mul_le_mul (by omega) (Nat.pow_le_pow_right (by norm_num) (by omega))
      _ < 2 ^ 64 := by norm_num

/-- Writing byte `val` at offset `off` makes the byte at `off` equal to `val`. -/
theorem byteAt_updatedWord_self {off val : Nat} (w : Nat) (hoff : off < 8) (hval : val < 256) :
    byteAt (updatedWord w off val) off = val := by
  apply Nat.eq_of_testBit_eq
  intro j
  rw [testBit_byteAt, testBit_updatedWord w (8 * off + j) hoff hval]
  by_cases hj : j < 8
  · simp [hj, show 8 * off ≤ 8 * off + j ∧ 8 * off + j < 8 * off + 8 by omega,
      show 8 * off + j - 8 * off = j by omega]
  · have : Nat.testBit val j = false := by
      apply Nat.testBit_lt_two_pow
      calc val < 256 := hval
        _ = 2 ^ 8 := by norm_num
        _ ≤ 2 ^ j := Nat.pow_le_pow_right (by norm_num) (by omega)
    simp [hj, this]

/-- Writing a byte at offset `off` leaves every other byte of the word intact. -/
theorem byteAt_updatedWord_other {off val k : Nat} (w : Nat) (hoff : off < 8) (hval : val < 256)
    (hk : k < 8) (hne : k ≠ off) :
    byteAt (updatedWord w off val) k = byteAt w k := by
  apply Nat.eq_of_testBit_eq
  intro j
  rw [testBit_byteAt, testBit_byteAt, testBit_updatedWord w (8 * k + j) hoff hval]
  by_cases hj : j < 8
  · have hrange : ¬ (8 * off ≤ 8 * k + j ∧ 8 * k + j < 8 * off + 8) := by omega
    simp [hj, hrange, show 8 * k + j < 64 by omega]
  · simp [hj]

/-- Writing back the saved byte undoes a byte write (word-level round-trip). -/
theorem updatedWord_roundtrip {off val : Nat} (w : Nat) (hw : w < 2 ^ 64)
    (hoff : off < 8) (hval : val < 256) :
    updatedWord (updatedWord w off val) off (byteAt w off) = w := by
  apply Nat.eq_of_testBit_eq
  intro i
  rw [testBit_updatedWord _ i hoff (byteAt_lt w off)]
  by_cases hr : 8 * off ≤ i ∧ i < 8 * off + 8
  · rw [if_pos hr, testBit_byteAt]
    simp [show 8 * off + (i - 8 * off) = i by omega, show i - 8 * off < 8 by omega]
  · rw [if_neg hr, testBit_updatedWord w i hoff hval, if_neg hr]
    by_cases h64 : i < 64
    · simp [h64]
    · have : Nat.testBit w i = false :=
        Nat.testBit_lt_two_pow
          (Nat.lt_of_lt_of_le hw (Nat.pow_le_pow_right (by norm_num) (by omega)))
      simp [h64, this]

theorem write_byte_fst (m : Memory) (addr val : Nat) :
    (write_byte m addr val).1
      = byteAt (m.word (align_addr_to_word addr)) (addr - align_addr_to_word addr) := rfl

theorem write_byte_word_at (m : Memory) (addr val : Nat) :
    (write_byte m addr val).2.word (align_addr_to_word addr)
      = updatedWord (m.word (align_addr_to_word addr)) (addr - align_addr_to_word addr) val := by
  rw [write_byte_eq]
  simp [ptraceWrite]

theorem write_byte_word_other (m : Memory) (addr val x : Nat)
    (hx : x ≠ align_addr_to_word addr) :
    (write_byte m addr val).2.word x = m.word x := by
  rw [write_byte_eq]
  simp [ptraceWrite, hx]

theorem bpLookup_insert (m : BpMap) (k : Nat) (v : Option Breakpoint) :
    bpLookup (bpInsert m k v) k = some v := by
  simp [bpLookup, bpInsert]

/-- C4: for every address `addr` and byte value `val`, `write_byte` writes
`val` only at the single byte position `addr` inside the word containing
`addr` — where the word address is `addr` rounded down to word alignment
and the byte offset is `addr` minus that aligned address — leaves every
other byte of that word (and every other word) unchanged, and returns the
byte that was previously at `addr`. -/
theorem C4_write_byte_single_byte (m : Memory) (addr val : Nat)
    (ha : addr < 2 ^ 64) (hv : val < 256) :
    align_addr_to_word addr = addr - addr % 8 ∧
    addr - align_addr_to_word addr = addr % 8 ∧
    (write_byte m addr val).1 = byteAt (m.word (align_addr_to_word addr)) (addr % 8) ∧
    byteAt ((write_byte m addr val).2.word (align_addr_to_word addr)) (addr % 8) = val ∧
    (∀ k, k < 8 → k ≠ addr % 8 →
      byteAt ((write_byte m addr val).2.word (align_addr_to_word addr)) k
        = byteAt (m.word (align_addr_to_word addr)) k) ∧
    (∀ x, x ≠ align_addr_to_word addr → (write_byte m addr val).2.word x = m.word x) := by
  have hoff := byte_offset_eq ha
  have hofflt : addr % 8 < 8 := Nat.mod_lt _ (by norm_num)
  refine ⟨align_addr_to_word_eq ha, hoff, ?_, ?_, ?_, ?_⟩
  · rw [write_byte_fst, hoff]
  · rw [write_byte_word_at, hoff]
    exact byteAt_updatedWord_self _ hofflt hv
  · intro k hk hkne
    rw [write_byte_word_at, hoff]
    exact byteAt_updatedWord_other _ hofflt hv hk hkne
  · intro x hx
    exact write_byte_word_other m addr val x hx

/-- Witness for C4 at `addr = 0x1001`, `val = 0xcc`: the byte written lands
at offset 1 of the word at `0x1000`. -/
theorem C4_witness :
    byteAt ((write_byte memC 0x1001 0xcc).2.word (align_addr_to_word 0x1001)) (0x1001 % 8)
      = 0xcc :=
  (C4_write_byte_single_byte memC 0x1001 0xcc (by decide) (by decide)).2.2.2.1

/-- Memory-level round trip: writing `v` at `a` and then writing back the
byte that the first write displaced restores every word of memory. -/
theorem write_byte_restore (m : Memory) (a v : Nat) (ha : a < 2 ^ 64) (hm : m.WF)
    (hv : v < 256) :
    ∀ x, (write_byte (write_byte m a v).2 a ((write_byte m a v).1 % 256)).2.word x
      = m.word x := by
  intro x
  by_cases hx : x = align_addr_to_word a
  · subst hx
    rw [write_byte_word_at, write_byte_word_at, write_byte_fst,
        Nat.mod_eq_of_lt (byteAt_lt _ _)]
    exact updatedWord_roundtrip _ (hm _) (byte_offset_lt ha) hv
  · rw [write_byte_word_other _ _ _ _ hx, write_byte_word_other _ _ _ _ hx]

/-- C2: installing then restoring a breakpoint at `a` in a live stopped
process leaves the byte at `a`, the rest of its containing word, and every
other word of memory equal to their values before the install, and leaves
the registers untouched. -/
theorem C2_install_restore_roundtrip (dbg : DbgState) (inf : Inferior) (a : Nat)
    (hinf : dbg.inferior = some inf) (ha : a < 2 ^ 64) (hm : inf.mem.WF) :
    ((restore_breakpoint (installAndRecord dbg a) a).2.inferior.map
        (fun i => i.mem.word (align_addr_to_word a)))
      = some (inf.mem.word (align_addr_to_word a)) ∧
    (∀ x, ((restore_breakpoint (installAndRecord dbg a) a).2.inferior.map
        (fun i => i.mem.word x)) = some (inf.mem.word x)) ∧
    ((restore_breakpoint (installAndRecord dbg a) a).2.inferior.map (fun i => i.regs))
      = some inf.regs := by
  have h204 : parse_address "0xcc" = some 204 := by decide
  have hins : installAndRecord dbg a
      = { dbg with
            inferior := some { inf with mem := (write_byte inf.mem a 204).2 },
            breakpoints :=
              bpInsert dbg.breakpoints a (some ⟨204, (write_byte inf.mem a 204).1⟩) } := by
    simp [installAndRecord, insert_breakpoint, h204, hinf]
  have hrt := write_byte_restore inf.mem a 204 ha hm (by norm_num)
  rw [hins]
  simp only [restore_breakpoint, bpLookup_insert, Option.map]
  refine ⟨?_, fun x => ?_, trivial⟩
  · rw [hrt]
  · rw [hrt]

/-- Witness for C2 at `dbgC` and address `0x1000`. -/
theorem C2_witness :
    ((restore_breakpoint (installAndRecord dbgC 0x1000) 0x1000).2.inferior.map
        (fun i => i.mem.word (align_addr_to_word 0x1000)))
      = some (infC.mem.word (align_addr_to_word 0x1000)) :=
  (C2_install_restore_roundtrip dbgC infC 0x1000 rfl (by decide)
    (fun _ => by norm_num [infC, memC])).1

/-- C10: after the session handles a managed breakpoint hit at
`rip - 1 = a` (restoring the original byte there), the mapping entry
stored back at `a` has its roles swapped relative to a freshly installed
breakpoint: `cur_byte` holds the true original instruction byte and
`orig_byte` holds the trap opcode `0xcc` that the restoring write
displaced. -/
theorem C10_restore_swaps_entry (dbg : DbgState) (inf : Inferior) (a : Nat)
    (hinf : dbg.inferior = some inf) (ha : a < 2 ^ 64) :
    bpLookup (handleWaitStatus (installAndRecord dbg a)
        (Except.ok (Status.Stopped Signal.SIGTRAP (a + 1)))).1.breakpoints a
      = some (some ⟨byteAt (inf.mem.word (align_addr_to_word a)) (a - align_addr_to_word a),
                    0xcc⟩) := by
  have h204 : parse_address "0xcc" = some 204 := by decide
  have hins : installAndRecord dbg a
      = { dbg with
            inferior := some { inf with mem := (write_byte inf.mem a 204).2 },
            breakpoints :=
              bpInsert dbg.breakpoints a (some ⟨204, (write_byte inf.mem a 204).1⟩) } := by
    simp [installAndRecord, insert_breakpoint, h204, hinf]
  have holt : (write_byte inf.mem a 204).1 < 256 := by
    rw [write_byte_fst]; exact byteAt_lt _ _
  have hself := byteAt_updatedWord_self (inf.mem.word (align_addr_to_word a))
    (byte_offset_lt ha) (show (204 : Nat) < 256 by norm_num)
  rw [hins]
  simp only [handleWaitStatus, Nat.add_sub_cancel, restore_breakpoint, bpLookup_insert,
    if_pos rfl, Nat.mod_eq_of_lt holt, write_byte_fst, write_byte_word_at, hself]
  simp [bpLookup_insert]

/-- Witness for C10 at `dbgC` and address `0x1000`: the stored entry ends up
as `⟨0x55, 0xcc⟩` — original byte in `cur_byte`, trap opcode in `orig_byte`. -/
theorem C10_witness :
    bpLookup (handleWaitStatus (installAndRecord dbgC 0x1000)
        (Except.ok (Status.Stopped Signal.SIGTRAP (0x1000 + 1)))).1.breakpoints 0x1000
      = some (some ⟨byteAt (infC.mem.word (align_addr_to_word 0x1000))
                      (0x1000 - align_addr_to_word 0x1000), 0xcc⟩) :=
  C10_restore_swaps_entry dbgC infC 0x1000 rfl (by decide)

/-- C3 fails on the code: `insert_breakpoint` never checks for an already
installed breakpoint, so a second install at `0x1000` overwrites the trap
with itself and records `orig_byte = 0xcc` — the true original byte
`0x55` is lost and the stored entry becomes `⟨0xcc, 0xcc⟩`. -/
theorem C3_double_install_records_trap :
    (dbgC.inferior.map (fun i => byteAt (i.mem.word 0x1000) 0)) = some 0x55 ∧
    ((insert_breakpoint dbgC 0x1000).1.map (fun b => b.orig_byte)) = some 0x55 ∧
    ((insert_breakpoint dbgInstalled 0x1000).1.map (fun b => b.orig_byte)) = some 0xcc ∧
    bpLookup (installAndRecord dbgInstalled 0x1000).breakpoints 0x1000
      = some (some ⟨0xcc, 0xcc⟩) := by decide

/-- C1 fails on the code: handling a SIGTRAP stop at `rip = 0x1001` with a
managed breakpoint at `0x1000` only restores the original byte.  Afterwards
the trap is no longer installed (the byte at `0x1000` is back to `0x55`,
not `0xcc`), the instruction pointer still points past the breakpoint
(`0x1001`, never rewound), and no single-step or reinstall happened — the
loop simply breaks. -/
theorem C1_trap_hit_skips_stepover :
    (dbgInstalled.inferior.map (fun i => byteAt (i.mem.word 0x1000) 0)) = some 0xcc ∧
    bpLookup dbgInstalled.breakpoints 0x1000 = some (some ⟨0xcc, 0x55⟩) ∧
    ((handleWaitStatus dbgInstalled
        (Except.ok (Status.Stopped Signal.SIGTRAP 0x1001))).1.inferior.map
      (fun i => byteAt (i.mem.word 0x1000) 0)) = some 0x55 ∧
    ((handleWaitStatus dbgInstalled
        (Except.ok (Status.Stopped Signal.SIGTRAP 0x1001))).1.inferior.map
      (fun i => i.regs.rip)) = some 0x1001 ∧
    (handleWaitStatus dbgInstalled
        (Except.ok (Status.Stopped Signal.SIGTRAP 0x1001))).2.2 = Ctl.brk := by decide

/-- C5 counterexample: with a process already running and a successful
launch, the `Run` arm's recorded action order is spawn first, kill second —
the old process is not terminated before the new one is launched. -/
theorem C5_counterexample :
    dbgC.inferior.isSome = true ∧
    (run_command dbgC (some infC)).2 = [Event.spawnProcess, Event.killOldProcess] ∧
    ¬ terminatedBeforeLaunched (run_command dbgC (some infC)).2 := by
  have h2 : (run_command dbgC (some infC)).2 = [Event.spawnProcess, Event.killOldProcess] := by
    decide
  refine ⟨rfl, h2, ?_⟩
  rintro ⟨i, j, hij, hi, hj⟩
  rw [h2] at hi hj
  have hjl : j < 2 := by
    by_contra hge
    have hnone : ([Event.spawnProcess, Event.killOldProcess].get? j) = none := by
      apply List.get?_eq_none.mpr
      simp only [List.length_cons, List.length_nil]
      omega
    rw [hnone] at hj
    exact Option.noConfusion hj
  have hi0 : i = 0 := by omega
  subst hi0
  simp only [List.get?] at hi
  exact absurd hi (by decide)

/-- C5 amended: `run` with a process already running spawns the new process
first and kills the old one immediately afterwards (before adopting the new
process and installing breakpoints); a failed launch reports the error and
leaves the session state — including the still-running old process —
unchanged. -/
theorem C5_amended_spawn_then_kill (dbg : DbgState) (infOld infNew : Inferior)
    (h : dbg.inferior = some infOld) :
    (run_command dbg (some infNew)).2 = [Event.spawnProcess, Event.killOldProcess] ∧
    run_command dbg none = (dbg, [Event.printErrorStartingSubprocess]) := by
  constructor
  · simp [run_command, clear_inferior, h]
  · rfl

/-- Witness for the amended C5 at `dbgC`. -/
theorem C5_witness :
    (run_command dbgC (some infC)).2 = [Event.spawnProcess, Event.killOldProcess] :=
  (C5_amended_spawn_then_kill dbgC infC infC rfl).1

/-- C6 on the code: a wait yielding `Signaled` falls into the wildcard arm
of the `go` loop — nothing is reported, the inferior is kept, and the loop
goes around again — while `Exited` and `Killed` are reported, drop the
inferior, and break. -/
theorem C6_signaled_ignored :
    handleWaitStatus dbgC (Except.ok (Status.Signaled Signal.SIGKILL)) = (dbgC, [], Ctl.cont) ∧
    (handleWaitStatus dbgC (Except.ok (Status.Signaled Signal.SIGKILL))).1.inferior.isSome
      = true ∧
    handleWaitStatus dbgC (Except.ok (Status.Exited 0))
      = ({ dbgC with inferior := none }, [Event.printExited 0], Ctl.brk) ∧
    handleWaitStatus dbgC (Except.ok (Status.Killed 9))
      = ({ dbgC with inferior := none }, [Event.printKilledStatus 9], Ctl.brk) :=
  ⟨rfl, rfl, rfl, rfl⟩

/-- `Inferior::wait` never constructs `Status::Killed`; that status only
comes from `Inferior::kill`, so the `Killed` arm of the `go` loop is dead
code. -/
theorem wait_never_Killed (ws : WaitStatus) (regs : Regs) (code : Int) :
    ¬ wait ws regs = some (Status.Killed code) := by
  cases ws <;> simp [wait]

/-- C7: `wait` maps a kernel exit status to `Exited`, a signal-terminated
status to `Signaled`, and a stop-by-signal status to `Stopped` carrying the
instruction pointer from the register snapshot at the stop; every other
kernel status aborts the whole debugger process (modelled as `none`)
instead of being retried or returned as a value. -/
theorem C7_wait_classification :
    (∀ pid code regs, wait (WaitStatus.Exited pid code) regs = some (Status.Exited code)) ∧
    (∀ pid sig core regs,
      wait (WaitStatus.Signaled pid sig core) regs = some (Status.Signaled sig)) ∧
    (∀ pid sig regs,
      wait (WaitStatus.Stopped pid sig) regs = some (Status.Stopped sig regs.rip)) ∧
    (∀ ws regs, isMappedStatus ws = false → wait ws regs = none) := by
  refine ⟨fun _ _ _ => rfl, fun _ _ _ _ => rfl, fun _ _ _ => rfl, ?_⟩
  intro ws regs h
  cases ws <;> simp_all [wait, isMappedStatus]

/-- Witness for C7: a ptrace-syscall status reaches the aborting arm. -/
theorem C7_witness : wait (WaitStatus.PtraceSyscall 7) ⟨0, 0⟩ = none :=
  C7_wait_classification.2.2.2 (WaitStatus.PtraceSyscall 7) ⟨0, 0⟩ rfl

/-- The backtrace loop can only end by finding `main`, losing the trail, or
running out of fuel (the fuel case is an artifact of the embedding). -/
theorem backtraceAux_end_cases (d : DwarfData) (m : Memory) :
    ∀ (fuel rip rbp : Nat),
      (backtraceAux d m fuel rip rbp).2 = BtEnd.foundMain ∨
      (∃ a, (backtraceAux d m fuel rip rbp).2 = BtEnd.lostTrail a) ∨
      (backtraceAux d m fuel rip rbp).2 = BtEnd.outOfFuel := by
  intro fuel
  induction fuel with
  | zero => intro rip rbp; right; right; rfl
  | succ n ih =>
    intro rip rbp
    cases hL : d.get_line_from_addr rip with
    | none => exact Or.inr (Or.inl ⟨rip, by simp [backtraceAux, hL]⟩)
    | some l =>
      cases hF : d.get_function_from_addr rip with
      | none => exact Or.inr (Or.inl ⟨rip, by simp [backtraceAux, hL, hF]⟩)
      | some f =>
        by_cases hf : f = "main"
        · left
          simp [backtraceAux, hL, hF, hf]
        · have := ih (m.word (rbp + 8)) (m.word rbp)
          simpa [backtraceAux, hL, hF, hf] using this

/-- C8: the stack walker emits frames innermost-first; it ends either after
emitting a frame whose resolved function is the entry function `main`
(so a process stopped at `main` yields exactly one frame) or, when the
lookup at the current instruction pointer yields no function or line, by
reporting the trail lost at that address without emitting a guessed frame;
otherwise each step takes the next instruction pointer from memory at
`frame_pointer + 8` and the next frame pointer from memory at
`frame_pointer`. -/
theorem C8_stack_walker :
    (∀ d m fuel rip rbp, (backtraceAux d m fuel rip rbp).2 ≠ BtEnd.outOfFuel →
      (backtraceAux d m fuel rip rbp).2 = BtEnd.foundMain ∨
      ∃ a, (backtraceAux d m fuel rip rbp).2 = BtEnd.lostTrail a) ∧
    (∀ d (inf : Inferior) fuel l,
      d.get_line_from_addr inf.regs.rip = some l →
      d.get_function_from_addr inf.regs.rip = some "main" →
      print_backtrace d inf (fuel + 1) = ([⟨"main", l.file, l.number⟩], BtEnd.foundMain)) ∧
    (∀ d m fuel rip rbp l f,
      d.get_line_from_addr rip = some l → d.get_function_from_addr rip = some f →
      f ≠ "main" →
      backtraceAux d m (fuel + 1) rip rbp
        = (⟨f, l.file, l.number⟩ :: (backtraceAux d m fuel (m.word (rbp + 8)) (m.word rbp)).1,
           (backtraceAux d m fuel (m.word (rbp + 8)) (m.word rbp)).2)) ∧
    (∀ d m fuel rip rbp,
      d.get_line_from_addr rip = none ∨ d.get_function_from_addr rip = none →
      backtraceAux d m (fuel + 1) rip rbp = ([], BtEnd.lostTrail rip)) := by
  refine ⟨?_, ?_, ?_, ?_⟩
  · intro d m fuel rip rbp h
    rcases backtraceAux_end_cases d m fuel rip rbp with hc | hc | hc
    · exact Or.inl hc
    · exact Or.inr hc
    · exact absurd hc h
  · intro d inf fuel l h1 h2
    rw [print_backtrace]
    simp [backtraceAux, h1, h2]
  · intro d m fuel rip rbp l f h1 h2 h3
    simp [backtraceAux, h1, h2, h3]
  · intro d m fuel rip rbp h
    rcases h with h | h
    · simp [backtraceAux, h]
    · cases hL : d.get_line_from_addr rip <;> simp [backtraceAux, hL, h]

/-- Witness for C8: stopped at `main`, the backtrace is exactly one frame. -/
theorem C8_witness :
    print_backtrace dwarfMainC infMainC 5 = ([⟨"main", "main.c", 1⟩], BtEnd.foundMain) :=
  C8_stack_walker.2.1 dwarfMainC infMainC 4 ⟨"main.c", 1⟩ rfl rfl

/-- C9 on the code: `breakpoint zzz` does produce a `Breakpoint` command
carrying the raw literal, and `parse_address` does fail on it — but the
`Breakpoint` arm then calls `.unwrap()` on that `None`, aborting the whole
session (modelled as `none`) instead of leaving it running to re-prompt. -/
theorem C9_nonhex_breakpoint_aborts :
    from_tokens ["breakpoint", "zzz"] = some (DebuggerCommand.Breakpoint "zzz") ∧
    parse_address "zzz" = none ∧
    breakpoint_command dbgC "zzz" = none := by
  refine ⟨by decide, by decide, rfl⟩

end Deet
